import Mathlib

/-!
Verification of the outage-record extraction and filtering logic of
HEP-notify (`src/main.rs`).  The extractor `parse_outages` is embedded as a
fold of a per-line transition function over the sequence of text lines, and
`filter_outages` as a list filter.  Strings are modelled as lists of
characters; the Rust string operations used by the source
(`starts_with`, `replace(pat, "")`, `trim`, `contains`, `to_lowercase`,
`is_empty`) are given executable char-list counterparts.
-/

namespace HEP

/-- A text line / string, modelled as its character sequence. -/
abbrev Str := List Char

/-- Rust `str::starts_with`: `startsWith p s` holds when `s` begins with `p`. -/
def startsWith : Str → Str → Bool
  | [], _ => true
  | _ :: _, [] => false
  | p :: ps, c :: cs => p == c && startsWith ps cs

/-- Fuel-driven scanner behind `removeAll`; removes leftmost non-overlapping
occurrences of `pat`.  The fuel bounds the number of characters scanned. -/
def removeAllAux (pat : Str) : Nat → Str → Str
  | _, [] => []
  | 0, s => s
  | fuel + 1, c :: rest =>
    if startsWith pat (c :: rest) && !pat.isEmpty then
      removeAllAux pat fuel (rest.drop (pat.length - 1))
    else
      c :: removeAllAux pat fuel rest

/-- Rust `str::replace(pat, "")`: delete every (leftmost, non-overlapping)
occurrence of `pat` from `s`. -/
def removeAll (pat s : Str) : Str := removeAllAux pat s.length s

/-- Rust `str::trim`: drop leading and trailing whitespace. -/
def trimStr (s : Str) : Str :=
  ((s.dropWhile Char.isWhitespace).reverse.dropWhile Char.isWhitespace).reverse

/-- Rust `str::contains` with a single-character pattern. -/
def containsChar (s : Str) (c : Char) : Bool := s.any (fun x => x == c)

/-- Rust `str::contains` with a string pattern: substring occurrence test. -/
def containsSubstr (s pat : Str) : Bool :=
  match s with
  | [] => pat.isEmpty
  | _ :: rest => startsWith pat s || containsSubstr rest pat

/-- Rust `str::to_lowercase` (restricted to the character-wise case map). -/
def toLowerStr (s : Str) : Str := s.map Char.toLower

/-- The literal `"Mjesto:"` (location marker). -/
def mjestoMarker : Str := "Mjesto:".data

/-- The literal `"Ulica:"` (street marker). -/
def ulicaMarker : Str := "Ulica:".data

/-- The literal `"Očekivano trajanje:"` (expected-duration marker). -/
def trajanjeMarker : Str := "Očekivano trajanje:".data

/-- The literal `"Napomena:"` (remark marker). -/
def napomenaMarker : Str := "Napomena:".data

/-- `struct PowerOutage` from `src/main.rs`. -/
structure PowerOutage where
  date : Str
  location : Str
  street : Str
  time : Str
  note : Str
deriving DecidableEq, Repr

/-- The extractor's loop state: the emitted records, the record under
assembly (`current_outage`), and the lookahead flag (`expect_time_next`). -/
structure ParseState where
  outages : List PowerOutage
  current : Option PowerOutage
  expect_time_next : Bool
deriving DecidableEq, Repr

/-- The loop state before the first line. -/
def initState : ParseState := ⟨[], none, false⟩

/-- The body of the `for line in lines` loop of `parse_outages`, branch for
branch: location marker seals the open record and opens a fresh one; street /
duration / remark markers update the open record (duration with an empty
inline value arms `expect_time_next` instead); an armed, non-empty,
hyphen-containing line is taken as the wrapped time value; all else is
ignored. -/
def processLine (date : Str) (s : ParseState) (line : Str) : ParseState :=
  if startsWith mjestoMarker line then
    { outages := s.outages ++ s.current.toList
      current := some { date := date, location := trimStr (removeAll mjestoMarker line)
                        street := [], time := [], note := [] }
      expect_time_next := false }
  else if startsWith ulicaMarker line then
    { s with current := s.current.map fun o => { o with street := trimStr (removeAll ulicaMarker line) }
             expect_time_next := false }
  else if startsWith trajanjeMarker line then
    if !(trimStr (removeAll trajanjeMarker line)).isEmpty then
      { s with current := s.current.map fun o => { o with time := trimStr (removeAll trajanjeMarker line) }
               expect_time_next := false }
    else
      { s with expect_time_next := true }
  else if startsWith napomenaMarker line then
    { s with current := s.current.map fun o => { o with note := trimStr (removeAll napomenaMarker line) }
             expect_time_next := false }
  else if s.expect_time_next && !line.isEmpty && containsChar line '-' then
    { s with current := s.current.map fun o => { o with time := line }
             expect_time_next := false }
  else s

/-- The record sequence produced by the loop of `parse_outages` over the
given lines, including the end-of-stream flush of a still-open record. -/
def parseLines (date : Str) (lines : List Str) : List PowerOutage :=
  let s := lines.foldl (processLine date) initState
  s.outages ++ s.current.toList

/-- `parse_outages` itself: its `Result` value is always `Ok`. -/
def parse_outages (date : Str) (lines : List Str) : Except String (List PowerOutage) :=
  Except.ok (parseLines date lines)

/-- `filter_outages` from `src/main.rs`: with a filter string, keep records
whose lowercased location or street contains the lowercased filter; with no
filter, keep everything. -/
def filter_outages (outages : List PowerOutage) (filter : Option Str) : List PowerOutage :=
  match filter with
  | some filter_text =>
    outages.filter fun outage =>
      containsSubstr (toLowerStr outage.location) (toLowerStr filter_text)
        || containsSubstr (toLowerStr outage.street) (toLowerStr filter_text)
  | none => outages

/-! ### Properties of the string operations -/

theorem startsWith_iff (p s : Str) : startsWith p s = true ↔ p <+: s := by
  induction p generalizing s with
  | nil => simp [startsWith]
  | cons a ps ih =>
    cases s with
    | nil => simp [startsWith]
    | cons c cs => simp [startsWith, ih, List.cons_prefix_cons]

theorem startsWith_append_self (p v : Str) : startsWith p (p ++ v) = true :=
  (startsWith_iff _ _).mpr (List.prefix_append p v)

theorem startsWith_exclusive {c d : Char} {p q line : Str} (hne : c ≠ d)
    (h : startsWith (d :: q) line = true) : startsWith (c :: p) line = false := by
  cases line with
  | nil => simp [startsWith] at h
  | cons x xs =>
    have hdx : (d == x) = true := by
      have := h
      simp only [startsWith, Bool.and_eq_true] at this
      exact this.1
    have hcx : (c == x) = false := by
      refine beq_eq_false_iff_ne.mpr fun hc => ?_
      exact hne (hc.trans (beq_iff_eq.mp hdx).symm)
    simp [startsWith, hcx]

theorem removeAllAux_congr (pat : Str) :
    ∀ (f₁ : Nat) (s : Str) (f₂ : Nat), s.length ≤ f₁ → s.length ≤ f₂ →
      removeAllAux pat f₁ s = removeAllAux pat f₂ s := by
  intro f₁
  induction f₁ with
  | zero =>
    intro s f₂ h₁ _
    have hs : s = [] := List.length_eq_zero.mp (Nat.le_zero.mp h₁)
    subst hs; cases f₂ <;> simp [removeAllAux]
  | succ f ih =>
    intro s f₂ h₁ h₂
    cases s with
    | nil => cases f₂ <;> simp [removeAllAux]
    | cons c rest =>
      obtain ⟨g, rfl⟩ : ∃ g, f₂ = g + 1 := by
        cases f₂ with
        | zero => simp at h₂
        | succ g => exact ⟨g, rfl⟩
      simp only [List.length_cons, Nat.add_le_add_iff_right] at h₁ h₂
      simp only [removeAllAux]
      by_cases hcond : (startsWith pat (c :: rest) && !pat.isEmpty) = true
      · rw [if_pos hcond, if_pos hcond]
        exact ih _ _ (le_trans (by simp) h₁) (le_trans (by simp) h₂)
      · rw [if_neg hcond, if_neg hcond]
        exact congrArg (c :: ·) (ih _ _ h₁ h₂)

theorem removeAll_cons_pos {pat : Str} {c : Char} {rest : Str}
    (h : (startsWith pat (c :: rest) && !pat.isEmpty) = true) :
    removeAll pat (c :: rest) = removeAll pat (rest.drop (pat.length - 1)) := by
  show removeAllAux pat (c :: rest).length (c :: rest) = _
  simp only [List.length_cons, removeAllAux, if_pos h]
  exact removeAllAux_congr pat _ _ _ (by simp) le_rfl

theorem removeAll_cons_neg {pat : Str} {c : Char} {rest : Str}
    (h : (startsWith pat (c :: rest) && !pat.isEmpty) = false) :
    removeAll pat (c :: rest) = c :: removeAll pat rest := by
  show removeAllAux pat (c :: rest).length (c :: rest) = _
  simp only [List.length_cons, removeAllAux, h, Bool.false_eq_true, if_false]
  rfl

theorem removeAll_append_self (pat v : Str) (hp : pat ≠ []) :
    removeAll pat (pat ++ v) = removeAll pat v := by
  cases pat with
  | nil => exact absurd rfl hp
  | cons a ps =>
    rw [List.cons_append, removeAll_cons_pos (by
      simp only [← List.cons_append, startsWith_append_self, List.isEmpty_cons,
        Bool.not_false, Bool.and_self])]
    congr 1
    simp only [List.length_cons, Nat.add_sub_cancel]
    exact List.drop_left ps v

theorem removeAll_of_not_infix (pat s : Str) (h : ¬ pat <:+: s) : removeAll pat s = s := by
  induction s with
  | nil => rfl
  | cons c rest ih =>
    have hpfx : startsWith pat (c :: rest) = false := by
      cases hsw : startsWith pat (c :: rest) with
      | false => rfl
      | true => exact absurd ((startsWith_iff _ _).mp hsw).isInfix h
    rw [removeAll_cons_neg (by simp [hpfx]),
      ih fun hi => h (List.infix_cons hi)]

theorem removeAll_extract (pat v : Str) (hp : pat ≠ []) (h : ¬ pat <:+: v) :
    removeAll pat (pat ++ v) = v := by
  rw [removeAll_append_self pat v hp, removeAll_of_not_infix pat v h]

theorem containsSubstr_iff (s pat : Str) : containsSubstr s pat = true ↔ pat <:+: s := by
  induction s with
  | nil => simp [containsSubstr, List.isEmpty_iff]
  | cons c rest ih =>
    simp [containsSubstr, startsWith_iff, ih, List.infix_cons_iff]

/-! ### The four marker literals are mutually exclusive line heads -/

theorem mjestoMarker_eq : mjestoMarker = 'M' :: "jesto:".data := rfl

theorem ulicaMarker_eq : ulicaMarker = 'U' :: "lica:".data := rfl

theorem trajanjeMarker_eq : trajanjeMarker = 'O' :: "čekivano trajanje:".data := rfl

theorem napomenaMarker_eq : napomenaMarker = 'N' :: "apomena:".data := rfl

theorem not_mjesto_of_ulica {line : Str} (h : startsWith ulicaMarker line = true) :
    startsWith mjestoMarker line = false := by
  rw [ulicaMarker_eq] at h
  rw [mjestoMarker_eq]
  exact startsWith_exclusive (by decide) h

theorem not_mjesto_of_trajanje {line : Str} (h : startsWith trajanjeMarker line = true) :
    startsWith mjestoMarker line = false := by
  rw [trajanjeMarker_eq] at h
  rw [mjestoMarker_eq]
  exact startsWith_exclusive (by decide) h

theorem not_ulica_of_trajanje {line : Str} (h : startsWith trajanjeMarker line = true) :
    startsWith ulicaMarker line = false := by
  rw [trajanjeMarker_eq] at h
  rw [ulicaMarker_eq]
  exact startsWith_exclusive (by decide) h

theorem not_mjesto_of_napomena {line : Str} (h : startsWith napomenaMarker line = true) :
    startsWith mjestoMarker line = false := by
  rw [napomenaMarker_eq] at h
  rw [mjestoMarker_eq]
  exact startsWith_exclusive (by decide) h

theorem not_ulica_of_napomena {line : Str} (h : startsWith napomenaMarker line = true) :
    startsWith ulicaMarker line = false := by
  rw [napomenaMarker_eq] at h
  rw [ulicaMarker_eq]
  exact startsWith_exclusive (by decide) h

theorem not_trajanje_of_napomena {line : Str} (h : startsWith napomenaMarker line = true) :
    startsWith trajanjeMarker line = false := by
  rw [napomenaMarker_eq] at h
  rw [trajanjeMarker_eq]
  exact startsWith_exclusive (by decide) h

/-- A line is a marker line when it begins with one of the four field
marker literals. -/
def isMarker (l : Str) : Bool :=
  startsWith mjestoMarker l || startsWith ulicaMarker l
    || startsWith trajanjeMarker l || startsWith napomenaMarker l

theorem of_isMarker_false {l : Str} (h : isMarker l = false) :
    startsWith mjestoMarker l = false ∧ startsWith ulicaMarker l = false ∧
      startsWith trajanjeMarker l = false ∧ startsWith napomenaMarker l = false := by
  simp only [isMarker, Bool.or_eq_false_iff] at h
  exact ⟨h.1.1.1, h.1.1.2, h.1.2, h.2⟩

/-! ### One-step behaviour of the loop body, branch by branch -/

theorem processLine_mjesto (date : Str) (s : ParseState) {line : Str}
    (h : startsWith mjestoMarker line = true) :
    processLine date s line =
      ⟨s.outages ++ s.current.toList,
        some ⟨date, trimStr (removeAll mjestoMarker line), [], [], []⟩, false⟩ := by
  simp [processLine, h]

theorem processLine_ulica (date : Str) (s : ParseState) {line : Str}
    (h : startsWith ulicaMarker line = true) :
    processLine date s line =
      { s with current := s.current.map fun o =>
                 { o with street := trimStr (removeAll ulicaMarker line) }
               expect_time_next := false } := by
  simp [processLine, not_mjesto_of_ulica h, h]

theorem processLine_trajanje_inline (date : Str) (s : ParseState) {line : Str}
    (h : startsWith trajanjeMarker line = true)
    (hv : (trimStr (removeAll trajanjeMarker line)).isEmpty = false) :
    processLine date s line =
      { s with current := s.current.map fun o =>
                 { o with time := trimStr (removeAll trajanjeMarker line) }
               expect_time_next := false } := by
  simp [processLine, not_mjesto_of_trajanje h, not_ulica_of_trajanje h, h, hv]

theorem processLine_trajanje_empty (date : Str) (s : ParseState) {line : Str}
    (h : startsWith trajanjeMarker line = true)
    (hv : (trimStr (removeAll trajanjeMarker line)).isEmpty = true) :
    processLine date s line = { s with expect_time_next := true } := by
  simp [processLine, not_mjesto_of_trajanje h, not_ulica_of_trajanje h, h, hv]

theorem processLine_napomena (date : Str) (s : ParseState) {line : Str}
    (h : startsWith napomenaMarker line = true) :
    processLine date s line =
      { s with current := s.current.map fun o =>
                 { o with note := trimStr (removeAll napomenaMarker line) }
               expect_time_next := false } := by
  simp [processLine, not_mjesto_of_napomena h, not_ulica_of_napomena h,
    not_trajanje_of_napomena h, h]

theorem processLine_cont (date : Str) (s : ParseState) {line : Str}
    (hm : isMarker line = false) (he : s.expect_time_next = true)
    (hne : line.isEmpty = false) (hh : containsChar line '-' = true) :
    processLine date s line =
      { s with current := s.current.map fun o => { o with time := line }
               expect_time_next := false } := by
  obtain ⟨h1, h2, h3, h4⟩ := of_isMarker_false hm
  simp [processLine, h1, h2, h3, h4, he, hne, hh]

theorem processLine_ignored (date : Str) (s : ParseState) {line : Str}
    (hm : isMarker line = false) (hh : containsChar line '-' = false) :
    processLine date s line = s := by
  obtain ⟨h1, h2, h3, h4⟩ := of_isMarker_false hm
  simp [processLine, h1, h2, h3, h4, hh]

/-! ### Fold-level invariants -/

theorem processLine_count (date : Str) (s : ParseState) (line : Str) :
    (processLine date s line).outages.length + (processLine date s line).current.toList.length
      = s.outages.length + s.current.toList.length
        + (if startsWith mjestoMarker line then 1 else 0) := by
  unfold processLine
  split_ifs <;> cases hc : s.current <;> simp_all

theorem foldl_count (date : Str) :
    ∀ (lines : List Str) (s : ParseState),
      ((lines.foldl (processLine date) s).outages).length
          + ((lines.foldl (processLine date) s).current.toList).length
        = s.outages.length + s.current.toList.length
          + lines.countP (fun l => startsWith mjestoMarker l) := by
  intro lines
  induction lines with
  | nil => intro s; simp
  | cons l ls ih =>
    intro s
    rw [List.foldl_cons, List.countP_cons, ih (processLine date s l), processLine_count]
    by_cases h : startsWith mjestoMarker l = true <;> simp [h]
    omega

theorem parseLines_length (date : Str) (lines : List Str) :
    (parseLines date lines).length = lines.countP (fun l => startsWith mjestoMarker l) := by
  have h := foldl_count date lines initState
  simp only [initState, List.length_nil, Option.toList_none, Nat.zero_add] at h
  simpa [parseLines] using h

theorem foldl_ignored (date : Str) :
    ∀ (mid : List Str),
      (∀ m ∈ mid, isMarker m = false ∧ containsChar m '-' = false) →
      ∀ s : ParseState, mid.foldl (processLine date) s = s := by
  intro mid
  induction mid with
  | nil => intro _ _; rfl
  | cons m ms ih =>
    intro h s
    rw [List.foldl_cons,
      processLine_ignored date s (h m (List.mem_cons_self m ms)).1
        (h m (List.mem_cons_self m ms)).2]
    exact ih (fun x hx => h x (List.mem_cons_of_mem m hx)) s

/-! ### Claims -/

/-- Claim C9: for every line sequence, the number of records produced by the
extractor equals the number of lines beginning with the location marker
`"Mjesto:"`; lines carrying only street, duration, remark, or continuation
content never create a record. -/
theorem C9_record_count (date : Str) (lines : List Str) :
    (parseLines date lines).length
      = lines.countP (fun l => startsWith mjestoMarker l) :=
  parseLines_length date lines

/-- Claim C4: extraction never fails — `parse_outages` always returns `Ok`
with a (possibly empty) record sequence, and a line sequence with no
location-marker line (in particular the empty sequence) yields `Ok []`. -/
theorem C4_never_fails (date : Str) (lines : List Str) :
    (∃ rs, parse_outages date lines = Except.ok rs)
      ∧ ((∀ l ∈ lines, startsWith mjestoMarker l = false) →
          parse_outages date lines = Except.ok []) := by
  refine ⟨⟨parseLines date lines, rfl⟩, fun h => ?_⟩
  have hlen : (parseLines date lines).length = 0 := by
    rw [parseLines_length, List.countP_eq_zero]
    intro a ha
    simp [h a ha]
  have : parseLines date lines = [] := List.length_eq_zero.mp hlen
  simp [parse_outages, this]

/-- Claim C4, witness: a page whose only line is `"U"` (no marker at all)
yields `Ok []`. -/
theorem C4_witness : parse_outages [] [['U']] = Except.ok [] :=
  (C4_never_fails [] [['U']]).2 (by decide)

/-- Claim C3: after the last line, a still-open record is sealed and appended
to the output sequence. -/
theorem C3_end_of_stream (date : Str) (lines : List Str) (r : PowerOutage)
    (h : (lines.foldl (processLine date) initState).current = some r) :
    parseLines date lines = (lines.foldl (processLine date) initState).outages ++ [r] := by
  simp [parseLines, h]

/-- Claim C3, witness: a trailing location-block with no further lines still
yields its record. -/
theorem C3_witness :
    parseLines "d".data ["Mjesto: A".data]
      = (["Mjesto: A".data].foldl (processLine "d".data) initState).outages
          ++ [⟨"d".data, "A".data, [], [], []⟩] :=
  C3_end_of_stream "d".data ["Mjesto: A".data] ⟨"d".data, "A".data, [], [], []⟩ (by decide)

theorem containsSubstr_nil (s : Str) : containsSubstr s [] = true := by
  cases s <;> simp [containsSubstr, startsWith]

/-- Claim C6: filtering with an absent filter or with the empty filter string
returns the record sequence unchanged. -/
theorem C6_identity (outages : List PowerOutage) :
    filter_outages outages none = outages
      ∧ filter_outages outages (some []) = outages := by
  refine ⟨rfl, ?_⟩
  simp [filter_outages, toLowerStr, containsSubstr_nil]

/-- Claim C10: after a duration marker with empty inline value, the
lookahead state survives any number of non-marker lines that are empty or
hyphen-free, and the first hyphen-containing non-empty non-marker line that
follows — however far away — is assigned to the open record's `time`. -/
theorem C10_continuation_persists (date : Str) (s : ParseState) (o : PowerOutage)
    (lm : Str) (mid : List Str) (L : Str)
    (hcur : s.current = some o)
    (hm : startsWith trajanjeMarker lm = true)
    (hempty : (trimStr (removeAll trajanjeMarker lm)).isEmpty = true)
    (hmid : ∀ m ∈ mid, isMarker m = false ∧ containsChar m '-' = false)
    (hL : isMarker L = false) (hLne : L.isEmpty = false)
    (hLh : containsChar L '-' = true) :
    (lm :: (mid ++ [L])).foldl (processLine date) s
      = { s with current := some { o with time := L }, expect_time_next := false } := by
  rw [List.foldl_cons, processLine_trajanje_empty date s hm hempty, List.foldl_append,
    foldl_ignored date mid hmid _, List.foldl_cons, List.foldl_nil,
    processLine_cont date _ hL rfl hLne hLh]
  simp [hcur]

/-- Claim C10, witness: the wrapped time value is picked up across an empty
line and a hyphen-free line. -/
theorem C10_witness :
    ("Očekivano trajanje:".data
        :: ([[], "nema vremena".data] ++ ["08:00 - 10:00".data])).foldl
          (processLine "d".data) ⟨[], some ⟨"d".data, "A".data, [], [], []⟩, false⟩
      = ⟨[], some ⟨"d".data, "A".data, [], "08:00 - 10:00".data, []⟩, false⟩ :=
  C10_continuation_persists "d".data ⟨[], some ⟨"d".data, "A".data, [], [], []⟩, false⟩
    ⟨"d".data, "A".data, [], [], []⟩ "Očekivano trajanje:".data
    [[], "nema vremena".data] "08:00 - 10:00".data
    rfl (by decide) (by decide) (by decide) (by decide) (by decide) (by decide)

/-- Claim C8: a street, duration (with inline value), or remark marker seen
a second time while a record is open overwrites the field with the value of
the second line (the line with the marker text removed, trimmed): processing
both lines ends in the same state as processing only the second. -/
theorem C8_last_write_wins (date : Str) (s : ParseState) (o : PowerOutage) (l1 l2 : Str)
    (hcur : s.current = some o) :
    ((startsWith ulicaMarker l1 = true ∧ startsWith ulicaMarker l2 = true) →
      processLine date (processLine date s l1) l2 = processLine date s l2
        ∧ (processLine date s l2).current
            = some { o with street := trimStr (removeAll ulicaMarker l2) })
    ∧ ((startsWith napomenaMarker l1 = true ∧ startsWith napomenaMarker l2 = true) →
      processLine date (processLine date s l1) l2 = processLine date s l2
        ∧ (processLine date s l2).current
            = some { o with note := trimStr (removeAll napomenaMarker l2) })
    ∧ ((startsWith trajanjeMarker l1 = true
          ∧ (trimStr (removeAll trajanjeMarker l1)).isEmpty = false
          ∧ startsWith trajanjeMarker l2 = true
          ∧ (trimStr (removeAll trajanjeMarker l2)).isEmpty = false) →
      processLine date (processLine date s l1) l2 = processLine date s l2
        ∧ (processLine date s l2).current
            = some { o with time := trimStr (removeAll trajanjeMarker l2) }) := by
  refine ⟨?_, ?_, ?_⟩
  · rintro ⟨h1, h2⟩
    constructor
    · rw [processLine_ulica date s h1, processLine_ulica date _ h2,
        processLine_ulica date s h2]
      simp [hcur]
    · rw [processLine_ulica date s h2]
      simp [hcur]
  · rintro ⟨h1, h2⟩
    constructor
    · rw [processLine_napomena date s h1, processLine_napomena date _ h2,
        processLine_napomena date s h2]
      simp [hcur]
    · rw [processLine_napomena date s h2]
      simp [hcur]
  · rintro ⟨h1, hv1, h2, hv2⟩
    constructor
    · rw [processLine_trajanje_inline date s h1 hv1, processLine_trajanje_inline date _ h2 hv2,
        processLine_trajanje_inline date s h2 hv2]
      simp [hcur]
    · rw [processLine_trajanje_inline date s h2 hv2]
      simp [hcur]

/-- Claim C8, witness: two street markers in one block — the second wins. -/
theorem C8_witness :
    processLine "d".data
        (processLine "d".data ⟨[], some ⟨"d".data, "A".data, [], [], []⟩, false⟩
          "Ulica: Prva".data) "Ulica: Druga".data
      = processLine "d".data ⟨[], some ⟨"d".data, "A".data, [], [], []⟩, false⟩
          "Ulica: Druga".data :=
  ((C8_last_write_wins "d".data ⟨[], some ⟨"d".data, "A".data, [], [], []⟩, false⟩
      ⟨"d".data, "A".data, [], [], []⟩ "Ulica: Prva".data "Ulica: Druga".data rfl).1
    ⟨by decide, by decide⟩).1

/-- A location line in which the marker text occurs a second time. -/
def c2Line : Str := "Mjesto: A Mjesto: B".data

/-- Claim C2, counterexample: the code removes **every** occurrence of
`"Mjesto:"` from the line (Rust `replace`), so on a line where the marker
text occurs again after the prefix, `location` is *not* the remainder of the
line after the prefix, trimmed. -/
theorem C2_counterexample :
    startsWith mjestoMarker c2Line = true
      ∧ (parseLines [] [c2Line]).map PowerOutage.location
          ≠ [trimStr (c2Line.drop mjestoMarker.length)] := by decide

/-- Claim C2, amended: a location-marker line seals and emits the open
record (if any) and opens a fresh record whose `location` is the line with
every occurrence of the marker removed, trimmed — which equals the remainder
after the prefix, trimmed, whenever the marker does not reoccur in that
remainder; `street`, `time`, `note` start empty and the lookahead flag is
cleared. -/
theorem C2_amended (date : Str) (s : ParseState) (line : Str)
    (h : startsWith mjestoMarker line = true) :
    processLine date s line
        = ⟨s.outages ++ s.current.toList,
            some ⟨date, trimStr (removeAll mjestoMarker line), [], [], []⟩, false⟩
      ∧ (containsSubstr (line.drop mjestoMarker.length) mjestoMarker = false →
          trimStr (removeAll mjestoMarker line)
            = trimStr (line.drop mjestoMarker.length)) := by
  refine ⟨processLine_mjesto date s h, fun hno => ?_⟩
  obtain ⟨t, ht⟩ := (startsWith_iff _ _).mp h
  subst ht
  rw [List.drop_left] at hno ⊢
  rw [removeAll_extract _ _ (by decide)
    (fun hi => by simp [(containsSubstr_iff t mjestoMarker).mpr hi] at hno)]

/-- Claim C2, witness: on an ordinary location line the sealed-and-fresh
record shape holds and `location` is the trimmed remainder after the
prefix. -/
theorem C2_witness :
    processLine "d".data ⟨[], some ⟨"d".data, "A".data, [], [], []⟩, false⟩
        "Mjesto: Zagreb".data
        = ⟨[⟨"d".data, "A".data, [], [], []⟩],
            some ⟨"d".data, trimStr (removeAll mjestoMarker "Mjesto: Zagreb".data),
              [], [], []⟩, false⟩
      ∧ trimStr (removeAll mjestoMarker "Mjesto: Zagreb".data)
          = trimStr ("Mjesto: Zagreb".data.drop mjestoMarker.length) :=
  ⟨(C2_amended "d".data ⟨[], some ⟨"d".data, "A".data, [], [], []⟩, false⟩
      "Mjesto: Zagreb".data (by decide)).1,
    (C2_amended "d".data ⟨[], some ⟨"d".data, "A".data, [], [], []⟩, false⟩
      "Mjesto: Zagreb".data (by decide)).2 (by decide)⟩

/-- The line sequence refuting claim C1 as stated: the line after the empty
duration marker is non-empty and contains a hyphen, but is itself a street
marker line. -/
def c1Lines : List Str :=
  ["Mjesto: A".data, "Očekivano trajanje:".data, "Ulica: B-C".data]

/-- Claim C1, counterexample: after a duration marker with empty inline
value, a following non-empty hyphen-containing line is *not* assigned to
`time` when it is itself a marker line — marker classification wins, here the
line is consumed as the street field instead. -/
theorem C1_counterexample :
    ((("Ulica: B-C".data).isEmpty = false
        ∧ containsChar "Ulica: B-C".data '-' = true)
      ∧ startsWith trajanjeMarker "Očekivano trajanje:".data = true
      ∧ (trimStr (removeAll trajanjeMarker "Očekivano trajanje:".data)).isEmpty = true)
    ∧ (parseLines "d".data c1Lines).map PowerOutage.time ≠ ["Ulica: B-C".data] := by
  decide

/-- Claim C1, amended: restricted to a following line that is not itself a
marker line, the claim holds: after a duration marker with empty inline
value the machine only arms the lookahead flag; a following non-marker
non-empty line with a hyphen is assigned verbatim to the open record's
`time` and the flag is cleared; a following non-marker line without a hyphen
leaves the state (in particular `time`) unchanged and is not consumed for
any field. -/
theorem C1_amended (date : Str) (s : ParseState) (o : PowerOutage) (lm lf : Str)
    (hcur : s.current = some o)
    (hm : startsWith trajanjeMarker lm = true)
    (hempty : (trimStr (removeAll trajanjeMarker lm)).isEmpty = true)
    (hf : isMarker lf = false) :
    processLine date s lm = { s with expect_time_next := true }
      ∧ (lf.isEmpty = false → containsChar lf '-' = true →
          processLine date { s with expect_time_next := true } lf
            = { s with current := some { o with time := lf }
                       expect_time_next := false })
      ∧ (containsChar lf '-' = false →
          processLine date { s with expect_time_next := true } lf
            = { s with expect_time_next := true }) := by
  refine ⟨processLine_trajanje_empty date s hm hempty, fun hne hh => ?_, fun hh => ?_⟩
  · rw [processLine_cont date _ hf rfl hne hh]
    simp [hcur]
  · exact processLine_ignored date _ hf hh

/-- Claim C1, witness: a plain `"08:00 - 10:00"` line after the empty
duration marker lands in `time` and clears the flag. -/
theorem C1_witness :
    processLine "d".data ⟨[], some ⟨"d".data, "A".data, [], [], []⟩, true⟩
        "08:00 - 10:00".data
      = ⟨[], some ⟨"d".data, "A".data, [], "08:00 - 10:00".data, []⟩, false⟩ :=
  (C1_amended "d".data ⟨[], some ⟨"d".data, "A".data, [], [], []⟩, false⟩
      ⟨"d".data, "A".data, [], [], []⟩ "Očekivano trajanje:".data
      "08:00 - 10:00".data rfl (by decide) (by decide) (by decide)).2.1
    (by decide) (by decide)

/-- The specification's filter criterion, stated independently of the code:
the filter string occurs, after lowercasing both sides, inside the record's
location or street. -/
def ciMatches (f : Str) (o : PowerOutage) : Prop :=
  toLowerStr f <:+: toLowerStr o.location ∨ toLowerStr f <:+: toLowerStr o.street

instance (f : Str) (o : PowerOutage) : Decidable (ciMatches f o) := by
  unfold ciMatches
  exact inferInstance

theorem filter_pred_eq (f : Str) (o : PowerOutage) :
    (containsSubstr (toLowerStr o.location) (toLowerStr f)
        || containsSubstr (toLowerStr o.street) (toLowerStr f))
      = decide (ciMatches f o) := by
  cases h1 : containsSubstr (toLowerStr o.location) (toLowerStr f) <;>
    cases h2 : containsSubstr (toLowerStr o.street) (toLowerStr f) <;>
      simp_all [ciMatches, ← containsSubstr_iff]

/-- Claim C5: with a present filter string, `filter_outages` is exactly the
subsequence (in order) of records whose location or street contains the
filter as a case-insensitive substring, and every returned record is an
unchanged member of the input. -/
theorem C5_filter_some (outages : List PowerOutage) (f : Str) (_hf : f ≠ []) :
    filter_outages outages (some f)
        = outages.filter (fun o => decide (ciMatches f o))
      ∧ List.Sublist (filter_outages outages (some f)) outages
      ∧ ∀ o ∈ filter_outages outages (some f), o ∈ outages := by
  have he : filter_outages outages (some f)
      = outages.filter (fun o => decide (ciMatches f o)) := by
    simp only [filter_outages]
    exact List.filter_congr (fun o _ => filter_pred_eq f o)
  refine ⟨he, ?_, ?_⟩
  · rw [he]
    exact List.filter_sublist outages
  · intro o ho
    rw [he] at ho
    exact List.mem_of_mem_filter ho

def mainRecord1 : PowerOutage := ⟨"d".data, "Somewhere".data, "123 Main Street".data, [], []⟩

def mainRecord2 : PowerOutage := ⟨"d".data, "Mainview District".data, [], [], []⟩

def mainRecord3 : PowerOutage := ⟨"d".data, "Elsewhere".data, "Oak Road".data, [], []⟩

/-- Claim C5, witness: filter `"MAIN"` keeps the record with street
`"123 Main Street"` and the record with location `"Mainview District"`, and
drops the record containing neither. -/
theorem C5_witness :
    filter_outages [mainRecord1, mainRecord2, mainRecord3] (some "MAIN".data)
        = [mainRecord1, mainRecord2, mainRecord3].filter
            (fun o => decide (ciMatches "MAIN".data o))
      ∧ filter_outages [mainRecord1, mainRecord2, mainRecord3] (some "MAIN".data)
        = [mainRecord1, mainRecord2] :=
  ⟨(C5_filter_some [mainRecord1, mainRecord2, mainRecord3] "MAIN".data (by decide)).1,
    by decide⟩

/-- A location-block as the round-trip claim composes it: a location marker
line followed by street, duration, and remark marker lines, all with inline
values. -/
def blockLines (loc st t n : Str) : List Str :=
  [mjestoMarker ++ loc, ulicaMarker ++ st, trajanjeMarker ++ t, napomenaMarker ++ n]

theorem markerValue {p v : Str} (hp : p ≠ []) (ht : trimStr v = v)
    (hc : containsSubstr v p = false) : trimStr (removeAll p (p ++ v)) = v := by
  rw [removeAll_extract p v hp
    (fun hi => by simp [(containsSubstr_iff v p).mpr hi] at hc), ht]

theorem block_run (date : Str) (s : ParseState) (loc st t n : Str)
    (hloc : trimStr loc = loc) (hlocc : containsSubstr loc mjestoMarker = false)
    (hst : trimStr st = st) (hstc : containsSubstr st ulicaMarker = false)
    (htt : trimStr t = t) (htc : containsSubstr t trajanjeMarker = false)
    (htne : t.isEmpty = false)
    (hn : trimStr n = n) (hnc : containsSubstr n napomenaMarker = false) :
    (blockLines loc st t n).foldl (processLine date) s
      = ⟨s.outages ++ s.current.toList, some ⟨date, loc, st, t, n⟩, false⟩ := by
  have eloc : trimStr (removeAll mjestoMarker (mjestoMarker ++ loc)) = loc :=
    markerValue (by decide) hloc hlocc
  have est : trimStr (removeAll ulicaMarker (ulicaMarker ++ st)) = st :=
    markerValue (by decide) hst hstc
  have ett : trimStr (removeAll trajanjeMarker (trajanjeMarker ++ t)) = t :=
    markerValue (by decide) htt htc
  have en : trimStr (removeAll napomenaMarker (napomenaMarker ++ n)) = n :=
    markerValue (by decide) hn hnc
  simp only [blockLines, List.foldl_cons, List.foldl_nil]
  rw [processLine_mjesto date s (startsWith_append_self _ _),
    processLine_ulica date _ (startsWith_append_self _ _),
    processLine_trajanje_inline date _ (startsWith_append_self _ _)
      (by rw [ett]; exact htne),
    processLine_napomena date _ (startsWith_append_self _ _)]
  simp [eloc, est, ett, en]

/-- Claim C7: composing two complete location-blocks with inline street,
time, and remark values and extracting yields exactly two records carrying
the supplied values (values are assumed already trimmed, non-degenerate —
not containing their own marker text — and the time values non-empty). -/
theorem C7_round_trip (date loc1 st1 t1 n1 loc2 st2 t2 n2 : Str)
    (hloc1 : trimStr loc1 = loc1) (hloc1c : containsSubstr loc1 mjestoMarker = false)
    (hst1 : trimStr st1 = st1) (hst1c : containsSubstr st1 ulicaMarker = false)
    (ht1 : trimStr t1 = t1) (ht1c : containsSubstr t1 trajanjeMarker = false)
    (ht1ne : t1.isEmpty = false)
    (hn1 : trimStr n1 = n1) (hn1c : containsSubstr n1 napomenaMarker = false)
    (hloc2 : trimStr loc2 = loc2) (hloc2c : containsSubstr loc2 mjestoMarker = false)
    (hst2 : trimStr st2 = st2) (hst2c : containsSubstr st2 ulicaMarker = false)
    (ht2 : trimStr t2 = t2) (ht2c : containsSubstr t2 trajanjeMarker = false)
    (ht2ne : t2.isEmpty = false)
    (hn2 : trimStr n2 = n2) (hn2c : containsSubstr n2 napomenaMarker = false) :
    parseLines date (blockLines loc1 st1 t1 n1 ++ blockLines loc2 st2 t2 n2)
      = [⟨date, loc1, st1, t1, n1⟩, ⟨date, loc2, st2, t2, n2⟩] := by
  unfold parseLines
  rw [List.foldl_append,
    block_run date initState loc1 st1 t1 n1 hloc1 hloc1c hst1 hst1c ht1 ht1c ht1ne hn1 hn1c,
    block_run date _ loc2 st2 t2 n2 hloc2 hloc2c hst2 hst2c ht2 ht2c ht2ne hn2 hn2c]
  simp [initState]

/-- Claim C7, witness: two concrete complete blocks round-trip. -/
theorem C7_witness :
    parseLines "1.1.2025".data
        (blockLines "Zagreb".data "Ilica 12".data "08:00 - 12:00".data "radovi".data
          ++ blockLines "Split".data "Riva 3".data "09:00 - 11:30".data "bez".data)
      = [⟨"1.1.2025".data, "Zagreb".data, "Ilica 12".data, "08:00 - 12:00".data,
            "radovi".data⟩,
          ⟨"1.1.2025".data, "Split".data, "Riva 3".data, "09:00 - 11:30".data,
            "bez".data⟩] :=
  C7_round_trip "1.1.2025".data "Zagreb".data "Ilica 12".data "08:00 - 12:00".data
    "radovi".data "Split".data "Riva 3".data "09:00 - 11:30".data "bez".data
    (by decide) (by decide) (by decide) (by decide) (by decide) (by decide) (by decide)
    (by decide) (by decide) (by decide) (by decide) (by decide) (by decide) (by decide)
    (by decide) (by decide) (by decide) (by decide)

example : parseLines "d".data ["Mjesto: A".data, "Ulica: B".data] =
    [⟨"d".data, "A".data, "B".data, [], []⟩] := by decide

example : parseLines "d".data
    ["Mjesto: A".data, "Očekivano trajanje:".data, "08:00 - 10:00".data] =
    [⟨"d".data, "A".data, [], "08:00 - 10:00".data, []⟩] := by decide

end HEP
